import Mathlib

/-!
Verification of the GraphStorm dataloading subsystem against its specification.

The Lean definitions below are shallow embeddings of the Python source in
`src/python/graphstorm/dataloading/dataloading.py`,
`src/tests/end2end-tests/data_gen/remove_test_mask.py` and (where the source of a
collaborator is not part of the excerpt) of the behaviour the specification
describes for it.  Conventions of the embedding:

* Python dicts keyed by edge type are association lists; edge types are coded as
  `Nat` (or as `String × String × String` triples where the code inspects the
  components of a canonical edge type).
* Tensors of edge/node IDs are `List Int`; `torch.arange n` is `List.range n`.
* Python `math.ceil(a / b)` on nonnegative integers is exact ceiling division
  `ceilNat a b = (a + b - 1) / b` (the float division is modelled exactly).
* A random draw `torch.randint(n, (1,))` is modelled by an oracle argument `r`
  reduced modulo `n`, so theorems hold for every possible draw.
* A failing Python `assert` (or raised error) is `none` / `Except.error`.
-/

/-! ### AllEtypeDistEdgeDataLoader (dataloading.py, lines 624-767)

The per-edge-type balanced distributed edge loader.  The mutable per-edge-type
state of the Python object (`self.dataset[etype]`, `self.data_idx[etype]`,
`self.bs_per_type[etype]`, `self.current_pos[etype]`) is one `EtypeState`
record, and the loader state is the list of these records, one per edge type,
plus the `drop_last` flag. -/

/-- Exact ceiling division, the embedding of Python `math.ceil(a / b)` for
nonnegative integers. -/
def ceilNat (a b : Nat) : Nat := (a + b - 1) / b

/-- The per-edge-type state of `AllEtypeDistEdgeDataLoader`: the target edge IDs
of this edge type (`self.dataset[etype]`), the index permutation
(`self.data_idx[etype]`), the per-type batch size (`self.bs_per_type[etype]`)
and the cursor (`self.current_pos[etype]`). -/
structure EtypeState where
  key : Nat
  data : List Int
  idx : List Nat
  bs : Nat
  pos : Nat
deriving Repr, DecidableEq

/-- The per-type batch size computed by `_reinit_dataset`:
`math.ceil(batch_size * len(idxs) / total_edges)`. -/
def bsPerType (batchSize total c : Nat) : Nat := ceilNat (batchSize * c) total

/-- The per-type expected number of iterations computed by `_reinit_dataset`:
`len(idxs) // bs`, plus one when `drop_last` is off and the division is not
exact. -/
def expIdxsPerType (dropLast : Bool) (c bs : Nat) : Nat :=
  let e := c / bs
  if !dropLast && c % bs != 0 then e + 1 else e

/-- The result of `AllEtypeDistEdgeDataLoader._reinit_dataset`: the per-edge-type
states (with `data_idx = torch.arange` and `current_pos = 0`) and
`self.expected_idxs`. -/
structure ReinitResult where
  states : List EtypeState
  expected : Nat
deriving Repr

/-- Embedding of `AllEtypeDistEdgeDataLoader._reinit_dataset` (lines 664-699):
records the edge IDs of each edge type, computes the per-type batch sizes from
the total edge count, and takes the maximum per-type expected iteration count
as the epoch length. -/
def reinitDataset (dropLast : Bool) (batchSize : Nat) (dataset : List (Nat × List Int)) :
    ReinitResult :=
  let total := (dataset.map (fun p => p.2.length)).sum
  let states := dataset.map (fun p =>
    { key := p.1, data := p.2, idx := List.range p.2.length,
      bs := bsPerType batchSize total p.2.length, pos := 0 : EtypeState })
  { states := states,
    expected := (states.map (fun s => expIdxsPerType dropLast s.data.length s.bs)).foldl max 0 }

/-- Embedding of `AllEtypeDistEdgeDataLoader._next_data_etype` (lines 710-735):
returns the next slice of positive edge IDs for one edge type, or `none` when
the type has reached its exhaustion condition (cursor at the end, or, with
`drop_last`, only a partial batch remaining), together with the updated state. -/
def nextDataEtype (dropLast : Bool) (s : EtypeState) : Option (List Int) × EtypeState :=
  if s.pos = s.data.length then (none, s)
  else if s.data.length < s.pos + s.bs then
    if dropLast then (none, s)
    else
      (some (((s.idx.drop s.pos).take (s.data.length - s.pos)).map (fun i => s.data.getD i 0)),
       { s with pos := s.data.length })
  else
    (some (((s.idx.drop s.pos).take s.bs).map (fun i => s.data.getD i 0)),
     { s with pos := s.pos + s.bs })

/-- Embedding of `AllEtypeDistEdgeDataLoader._rand_gen` (lines 737-740): pick one
edge of the given edge type at random; the random draw is the oracle value `r`
reduced into range. -/
def randGen (r : Nat) (s : EtypeState) : Int := s.data.getD (r % s.data.length) 0

/-- Embedding of `AllEtypeDistEdgeDataLoader._next_data` (lines 742-767): pull
the next slice from every edge type; if all types are exhausted the epoch ends
(`none`); otherwise exhausted types contribute one randomly re-drawn edge and
the remaining types contribute their slices, flattened into (etype, eid) pairs. -/
def nextData (dropLast : Bool) (rand : Nat → Nat) (states : List EtypeState) :
    Option (List (Nat × Int)) × List EtypeState :=
  let ret := states.map (fun s => (s, nextDataEtype dropLast s))
  if ret.all (fun p => p.2.1.isNone) then
    (none, ret.map (fun p => p.2.2))
  else
    (some (ret.flatMap (fun p =>
      match p.2.1 with
      | none => [(p.1.key, randGen (rand p.1.key) p.1)]
      | some b => b.map (fun d => (p.1.key, d)))),
     ret.map (fun p => p.2.2))

/-- The (etype, eid) pairs one edge type contributes to a non-final minibatch of
`_next_data`: its slice when one is available, otherwise a single randomly
re-drawn edge. -/
def etypeContrib (dropLast : Bool) (rand : Nat → Nat) (t : EtypeState) : List (Nat × Int) :=
  match (nextDataEtype dropLast t).1 with
  | none => [(t.key, randGen (rand t.key) t)]
  | some b => b.map (fun d => (t.key, d))

/-! ### Target-edge-type closure of GSgnnEdgeDataLoader (dataloading.py, lines 215-227)

`GSgnnEdgeDataLoader.__init__` with `remove_target_edge_type=True` builds the
list of edge types to mask out of neighbor sampling by iterating over
`target_etypes` while appending reverse types to the same list, so appended
reverse types are themselves processed by later loop iterations.  `lookupEtype`
embeds the Python dict membership test plus access
(`e in reverse_edge_types_map` / `reverse_edge_types_map[e]`). -/

def lookupEtype (m : List (Nat × Nat)) (e : Nat) : Option Nat :=
  match m with
  | [] => none
  | (k, v) :: rest => if k = e then some v else lookupEtype rest e

/-- Embedding of the loop
`for e in target_etypes: if e in reverse_edge_types_map and
reverse_edge_types_map[e] not in target_etypes: target_etypes.append(...)`
of `GSgnnEdgeDataLoader.__init__` (lines 219-222): `i` is the loop cursor into
the growing list `acc`, which starts as the list of target edge types. -/
def computeTargetEtypes (m : List (Nat × Nat)) (i : Nat) (acc : List Nat) : List Nat :=
  if h : i < acc.length then
    match hl : lookupEtype m (acc.get ⟨i, h⟩) with
    | some r =>
      if r ∈ acc then computeTargetEtypes m (i+1) acc
      else computeTargetEtypes m (i+1) (acc ++ [r])
    | none => computeTargetEtypes m (i+1) acc
  else acc
termination_by ((m.map Prod.snd).filter (fun x => !acc.contains x)).length + (acc.length - i)
decreasing_by
  · omega
  · rename_i hnr
    have lookup_mem : ∀ (mm : List (Nat × Nat)) (x v : Nat),
        lookupEtype mm x = some v → v ∈ mm.map Prod.snd := by
      intro mm
      induction mm with
      | nil => intro x v hv; simp [lookupEtype] at hv
      | cons p rest ih =>
        intro x v hv
        obtain ⟨k, w⟩ := p
        simp only [lookupEtype] at hv
        by_cases hk : k = x
        · simp [hk] at hv
          simp [hv]
        · simp [hk] at hv
          simp [ih x v hv]
    have filter_mono : ∀ (p q : Nat → Bool), (∀ x, q x = true → p x = true) →
        ∀ l : List Nat, (l.filter q).length ≤ (l.filter p).length := by
      intro p q hpq l
      induction l with
      | nil => simp
      | cons a t ih =>
        by_cases hq : q a = true
        · have hp := hpq a hq
          simp [List.filter_cons, hq, hp]
          omega
        · simp at hq
          by_cases hp : p a = true
          · simp [List.filter_cons, hq, hp]
            omega
          · simp at hp
            simp [List.filter_cons, hq, hp]
            exact ih
    have filter_strict : ∀ (p q : Nat → Bool), (∀ x, q x = true → p x = true) →
        ∀ (rr : Nat) (l : List Nat), rr ∈ l → p rr = true → q rr = false →
        (l.filter q).length < (l.filter p).length := by
      intro p q hpq rr l
      induction l with
      | nil => intro hmem _ _; simp at hmem
      | cons a t ih =>
        intro hmem hpr hqr
        rcases List.mem_cons.mp hmem with heq | htail
        · subst heq
          simp [List.filter_cons, hpr, hqr]
          have := filter_mono p q hpq t
          omega
        · by_cases hq : q a = true
          · have hp := hpq a hq
            simp [List.filter_cons, hq, hp]
            exact ih htail hpr hqr
          · simp at hq
            by_cases hp : p a = true
            · simp [List.filter_cons, hq, hp]
              have := ih htail hpr hqr
              omega
            · simp at hp
              simp [List.filter_cons, hq, hp]
              exact ih htail hpr hqr
    have hlt : ((m.map Prod.snd).filter (fun x => !(acc ++ [r]).contains x)).length <
        ((m.map Prod.snd).filter (fun x => !acc.contains x)).length := by
      refine filter_strict _ _ ?_ r _ (lookup_mem m _ r hl) ?_ ?_
      · intro x hx
        have hx2 : x ∉ acc ++ [r] := by simpa using hx
        have hx3 : x ∉ acc := fun hmem => hx2 (List.mem_append_left _ hmem)
        simpa using hx3
      · simpa using hnr
      · simp
    simp only [List.length_append, List.length_singleton]
    omega
  · omega

/-- The masked edge-type set as the specification words it: the target edge
types plus, for each target type having an entry in the reverse map, its mapped
reverse type when that reverse is not already a target type.  This definition
follows the claim text, to be compared with `computeTargetEtypes`, which is
the embedding of the source. -/
def specMaskedEtypes (m : List (Nat × Nat)) (targets : List Nat) : List Nat :=
  targets ++ targets.filterMap (fun e =>
    match lookupEtype m e with
    | some r => if r ∈ targets then none else some r
    | none => none)

/-- Modelled from the spec: `modify_fanout_for_target_etype`
(graphstorm.dataloading.utils, whose source is not part of the excerpt)
instructs the neighbor sampler to mask the closure edge types out of every
fanout hop, i.e. sets their per-hop fanout to 0 and keeps every other edge
type's fanout. -/
def modify_fanout_for_target_etype (fanout : List (Nat → Nat)) (targetEtypes : List Nat) :
    List (Nat → Nat) :=
  fanout.map (fun hop e => if e ∈ targetEtypes then 0 else hop e)

/-! ### _ReconstructedNeighborSampler (dataloading.py, lines 35-88)

The feature-reconstruction sampler.  Canonical edge types are
(source-type, relation, destination-type) triples; `hasNodeFeats` is the
dataset's `has_node_feats` predicate. -/

/-- The `self._subg_etypes` list of `_ReconstructedNeighborSampler.__init__`:
for each requested destination node type, the incoming canonical edge types
whose source node type carries stored node features. -/
def reconSubgEtypes (etypes : List (String × String × String)) (hasNodeFeats : String → Bool)
    (constructedEmbedNtypes : List String) : List (String × String × String) :=
  constructedEmbedNtypes.flatMap (fun dst =>
    etypes.filter (fun e => e.2.2 == dst && hasNodeFeats e.1))

/-- The `target_ntypes` set of `_ReconstructedNeighborSampler.__init__`: the
requested node types for which at least one feature-bearing incoming edge type
was found. -/
def reconTargetNtypes (etypes : List (String × String × String)) (hasNodeFeats : String → Bool)
    (constructedEmbedNtypes : List String) : List String :=
  constructedEmbedNtypes.filter (fun dst =>
    etypes.any (fun e => e.2.2 == dst && hasNodeFeats e.1))

/-- The `remain_ntypes` set of `_ReconstructedNeighborSampler.__init__`:
`set(constructed_embed_ntypes) - target_ntypes`. -/
def reconRemainNtypes (etypes : List (String × String × String)) (hasNodeFeats : String → Bool)
    (constructedEmbedNtypes : List String) : List String :=
  constructedEmbedNtypes.filter (fun d =>
    !((reconTargetNtypes etypes hasNodeFeats constructedEmbedNtypes).contains d))

/-- Embedding of `_ReconstructedNeighborSampler.__init__` (lines 50-71): checks
the fanout, collects the feature-bearing incoming edge types of each requested
node type, fails (assert) when some requested type has none, builds the fanout
mapping assigning `fanout` to the collected edge types and 0 to all others, and
finally fails (assert) when no edge type was collected. -/
def reconInit (etypes : List (String × String × String)) (hasNodeFeats : String → Bool)
    (constructedEmbedNtypes : List String) (fanout : Int) :
    Option (List (String × String × String) × List ((String × String × String) × Int)) :=
  if fanout > 0 ∨ fanout = -1 then
    if (reconRemainNtypes etypes hasNodeFeats constructedEmbedNtypes).isEmpty then
      if (reconSubgEtypes etypes hasNodeFeats constructedEmbedNtypes).isEmpty then none
      else some (reconSubgEtypes etypes hasNodeFeats constructedEmbedNtypes,
        etypes.map (fun e =>
          (e, if (reconSubgEtypes etypes hasNodeFeats constructedEmbedNtypes).contains e
              then fanout else 0)))
    else none
  else none

/-! ### __next__ of the edge / link-prediction / node dataloaders
(dataloading.py, lines 267-273, 507-513 and 826-832, 1083-1088)

Each `__next__` pulls one batch from the underlying distributed sampling
primitive (modelled as the already-pulled batch components) and, when a
feature-reconstruction sampler is configured and the block list is nonempty,
prepends the sampled reconstruction block (`blocks.insert(0, block)`) and
replaces the input-node set by the sample's expanded input-node set.  The
sampler is an abstract function `ι → β × ι` (block, new input nodes),
standing for `_ReconstructedNeighborSampler.sample`. -/

/-- Embedding of `GSgnnEdgeDataLoader.__next__` (lines 267-273). -/
def gsgnnEdgeDataLoaderNext {ι γ β : Type} (samplerOpt : Option (ι → β × ι))
    (inputNodes : ι) (batchGraph : γ) (blocks : List β) : ι × γ × List β :=
  match samplerOpt with
  | some sample =>
    if 0 < blocks.length then
      ((sample inputNodes).2, batchGraph, (sample inputNodes).1 :: blocks)
    else (inputNodes, batchGraph, blocks)
  | none => (inputNodes, batchGraph, blocks)

/-- Embedding of `GSgnnLinkPredictionDataLoader.__next__` (lines 507-513), also
the shape of `GSgnnAllEtypeLinkPredictionDataLoader.__next__` (lines 826-832). -/
def gsgnnLPDataLoaderNext {ι γ β : Type} (samplerOpt : Option (ι → β × ι))
    (inputNodes : ι) (posGraph negGraph : γ) (blocks : List β) : ι × γ × γ × List β :=
  match samplerOpt with
  | some sample =>
    if 0 < blocks.length then
      ((sample inputNodes).2, posGraph, negGraph, (sample inputNodes).1 :: blocks)
    else (inputNodes, posGraph, negGraph, blocks)
  | none => (inputNodes, posGraph, negGraph, blocks)

/-- Embedding of `GSgnnNodeDataLoader.__next__` (lines 1083-1088). -/
def gsgnnNodeDataLoaderNext {ι σ β : Type} (samplerOpt : Option (ι → β × ι))
    (inputNodes : ι) (seeds : σ) (blocks : List β) : ι × σ × List β :=
  match samplerOpt with
  | some sample =>
    if 0 < blocks.length then
      ((sample inputNodes).2, seeds, (sample inputNodes).1 :: blocks)
    else (inputNodes, seeds, blocks)
  | none => (inputNodes, seeds, blocks)

/-! ### Target-index trimming (dataloading.py, lines 245-261, 480-487, 570-576,
800-806, 1067-1071) -/

/-- Modelled from the spec: `trim_data` (graphstorm.dataloading.utils, whose
source is not part of the excerpt) trims a target ID list to a length evenly
divisible by the number of distributed workers, keeping a prefix. -/
def trim_data (numWorkers : Nat) (ids : List Int) : List Int :=
  ids.take (ids.length - ids.length % numWorkers)

/-- Embedding of the trimming step shared by `_prepare_dataloader` of the
link-prediction and node dataloaders: with `train_task=True` every target ID
tensor is trimmed via `trim_data`; with `train_task=False` the target index is
left untouched. -/
def prepareTargetIdx (trainTask : Bool) (numWorkers : Nat)
    (targetIdxs : List (Nat × List Int)) : List (Nat × List Int) :=
  if trainTask then targetIdxs.map (fun p => (p.1, trim_data numWorkers p.2))
  else targetIdxs

/-- Embedding of `GSgnnEdgeDataLoader._prepare_dataloader` (lines 245-261)
restricted to its treatment of the target index: this method contains no
trimming step (it uses `train_task` only to decide shuffling), so the target
index is handed to the underlying distributed loader unchanged in both
training and evaluation mode. -/
def edgePrepareTargetIdx (trainTask : Bool)
    (targetIdxs : List (Nat × List Int)) : List (Nat × List Int) :=
  match trainTask with
  | true => targetIdxs
  | false => targetIdxs

/-! ### Construction-time edge-type checks (dataloading.py, lines 229-231,
440-442, 869-871)

`GSgnnEdgeDataLoader.__init__`, `GSgnnLinkPredictionDataLoader.__init__` and
`GSgnnLinkPredictionTestDataLoader.__init__` each assert, for every edge-type
key of the target index, membership in `g.canonical_etypes` before any
dataloader/iterator is built.  A failed assert (GraphTypeError per the spec's
taxonomy) is `none`. -/

/-- The per-key membership check `for etype in target_idx: assert etype in
dataset.g.canonical_etypes`. -/
def etypesInGraph (canonicalEtypes : List Nat) (targetIdx : List (Nat × List Int)) : Bool :=
  targetIdx.all (fun p => canonicalEtypes.contains p.1)

/-- Embedding of the construction of `GSgnnEdgeDataLoader` (lines 207-243)
restricted to its fail-fast part: the target-etype closure is computed, then
every target edge type is checked against the graph; on success the
constructor returns the data the later pipeline uses. -/
def gsgnnEdgeDataLoaderInit (canonicalEtypes : List Nat) (revMap : List (Nat × Nat))
    (targetIdx : List (Nat × List Int)) :
    Option (List (Nat × List Int) × List Nat) :=
  if etypesInGraph canonicalEtypes targetIdx then
    some (targetIdx, computeTargetEtypes revMap 0 (targetIdx.map Prod.fst))
  else none

/-- Embedding of the construction of `GSgnnLinkPredictionDataLoader`
(lines 434-454) restricted to its fail-fast part. -/
def gsgnnLPDataLoaderInit (canonicalEtypes : List Nat)
    (targetIdx : List (Nat × List Int)) : Option (List (Nat × List Int)) :=
  if etypesInGraph canonicalEtypes targetIdx then some targetIdx else none

/-- Embedding of the construction of `GSgnnLinkPredictionTestDataLoader`
(lines 866-881) restricted to its fail-fast part; on success `_reinit_dataset`
sets `current_pos = 0` for every edge type. -/
def gsgnnLPTestDataLoaderInit (canonicalEtypes : List Nat)
    (targetIdx : List (Nat × List Int)) : Option (List (Nat × Nat)) :=
  if etypesInGraph canonicalEtypes targetIdx then
    some (targetIdx.map (fun p => (p.1, 0)))
  else none

/-! ### Config converter (graphstorm-processing)

The source of `GConstructConfigConverter` is not part of the excerpt (only its
tests, `src/graphstorm-processing/tests/test_converter.py`, are), so the
converter is modelled from the specification. -/

/-- The parts of a node or edge declaration that the rejection rules of the
config converter inspect: its file paths (`files`, normalised to a list) and
the names of its feature transforms (a feature without a transform is the
pass-through transform `"no-op"`). -/
structure GDecl where
  files : List String
  featureTransforms : List String
deriving Repr, DecidableEq

/-- A path contains a wildcard character. -/
def hasWildcard (s : String) : Bool := s.data.any (fun c => c == '*' || c == '?')

/-- Modelled from the spec: the per-declaration validation of
`GConstructConfigConverter` — it rejects (ValueError) any file path containing
wildcard characters and any feature transform other than the pass-through
transform `"no-op"`. -/
def convertDecl (d : GDecl) : Except String GDecl :=
  if d.files.any hasWildcard then Except.error "wildcard in file path"
  else if d.featureTransforms.any (fun t => t != "no-op") then
    Except.error "unsupported feature transform"
  else Except.ok d

/-- Modelled from the spec: `GConstructConfigConverter.convert_nodes` maps the
per-declaration conversion over the node declarations, propagating the first
ValueError. -/
def convert_nodes : List GDecl → Except String (List GDecl)
  | [] => Except.ok []
  | d :: rest =>
    match convertDecl d with
    | Except.error e => Except.error e
    | Except.ok r =>
      match convert_nodes rest with
      | Except.error e => Except.error e
      | Except.ok rs => Except.ok (r :: rs)

/-- Modelled from the spec: `GConstructConfigConverter.convert_edges` applies
the same validation to edge declarations. -/
def convert_edges : List GDecl → Except String (List GDecl) :=
  convert_nodes

/-! ### remove_test_mask (src/tests/end2end-tests/data_gen/remove_test_mask.py,
lines 25-30)

The tensor dict is an association list from feature name to tensor (abstracted
as `Int`); Python `'test_mask' not in name` is substring (infix) containment
on the character lists. -/

/-- Substring containment: `sub` occurs somewhere inside `s`. -/
def containsSub (sub s : String) : Bool := decide (List.IsInfix sub.data s.data)

/-- Embedding of `remove_test_mask`: keep exactly the entries whose name does
not contain the substring `test_mask`. -/
def remove_test_mask (data : List (String × Int)) : List (String × Int) :=
  data.filter (fun p => !(containsSub "test_mask" p.1))

/-! ### Lemmas and theorems about the embedded definitions -/

theorem nextData_some_eq_flatMap (dropLast : Bool) (rand : Nat → Nat)
    (states : List EtypeState) (mb : List (Nat × Int))
    (h : (nextData dropLast rand states).1 = some mb) :
    mb = states.flatMap (etypeContrib dropLast rand) := by
  unfold nextData at h
  by_cases hall : (states.map (fun s => (s, nextDataEtype dropLast s))).all
      (fun p => p.2.1.isNone) = true
  · simp [hall] at h
  · simp only [hall, Bool.false_eq_true, if_false, Option.some.injEq] at h
    rw [← h, List.flatMap_map]
    rfl

theorem etypeContrib_key (dropLast : Bool) (rand : Nat → Nat) (t : EtypeState) :
    ∀ q ∈ etypeContrib dropLast rand t, q.1 = t.key := by
  intro q hq
  unfold etypeContrib at hq
  cases h : (nextDataEtype dropLast t).1 with
  | none => rw [h] at hq; simp at hq; rw [hq]
  | some b =>
    rw [h] at hq
    simp only [List.mem_map] at hq
    obtain ⟨d, _, hd⟩ := hq
    rw [← hd]

theorem nextDataEtype_some_spec (dropLast : Bool) (s : EtypeState) (b : List Int)
    (hbs : 1 ≤ s.bs) (hlen : s.idx.length = s.data.length) (hpos : s.pos ≤ s.data.length)
    (hidx : ∀ i ∈ s.idx, i < s.data.length)
    (h : (nextDataEtype dropLast s).1 = some b) :
    b ≠ [] ∧ ∀ e ∈ b, e ∈ s.data := by
  unfold nextDataEtype at h
  split_ifs at h with h1 h2 h3
  · dsimp only at h
    injection h with h
    subst h
    constructor
    · intro hcon
      have hl0 := congrArg List.length hcon
      simp only [List.length_map, List.length_take, List.length_drop, List.length_nil] at hl0
      rw [hlen] at hl0
      omega
    · intro e he
      simp only [List.mem_map] at he
      obtain ⟨i, hi, rfl⟩ := he
      have hiidx : i ∈ s.idx := List.mem_of_mem_drop (List.mem_of_mem_take hi)
      have hilt := hidx i hiidx
      rw [List.getD_eq_getElem s.data 0 hilt]
      exact List.getElem_mem hilt
  · dsimp only at h
    injection h with h
    subst h
    constructor
    · intro hcon
      have hl0 := congrArg List.length hcon
      simp only [List.length_map, List.length_take, List.length_drop, List.length_nil] at hl0
      rw [hlen] at hl0
      omega
    · intro e he
      simp only [List.mem_map] at he
      obtain ⟨i, hi, rfl⟩ := he
      have hiidx : i ∈ s.idx := List.mem_of_mem_drop (List.mem_of_mem_take hi)
      have hilt := hidx i hiidx
      rw [List.getD_eq_getElem s.data 0 hilt]
      exact List.getElem_mem hilt

theorem nextData_none_iff (dropLast : Bool) (rand : Nat → Nat) (states : List EtypeState) :
    (nextData dropLast rand states).1 = none ↔
      ∀ s ∈ states, (nextDataEtype dropLast s).1 = none := by
  unfold nextData
  by_cases hall : (states.map (fun s => (s, nextDataEtype dropLast s))).all
      (fun p => p.2.1.isNone) = true
  · simp only [hall, if_true]
    constructor
    · intro _ s hs
      have h2 := List.all_eq_true.mp hall _
        (List.mem_map_of_mem (fun s => (s, nextDataEtype dropLast s)) hs)
      simpa using h2
    · intro _
      trivial
  · simp only [hall, Bool.false_eq_true, if_false]
    constructor
    · intro hcon
      simp at hcon
    · intro hforall
      exfalso
      apply hall
      rw [List.all_eq_true]
      intro p hp
      rw [List.mem_map] at hp
      obtain ⟨s, hs, rfl⟩ := hp
      simpa using hforall s hs

/-- Claim C1: every minibatch the per-edge-type balanced loader produces contains
at least one positive edge of every edge type present in its target-edge
dataset, and `_next_data` signals end-of-epoch (`none`) exactly when every edge
type has independently reached its exhaustion condition
(`_next_data_etype = None`).  The hypotheses are the construction invariants of
`_reinit_dataset`: nonempty per-type edge sets, per-type batch size at least 1,
an index permutation of the right length with in-range entries, and a cursor
inside the data. -/
theorem allEtype_minibatch_covers_all_etypes
    (dropLast : Bool) (rand : Nat → Nat) (states : List EtypeState)
    (hinv : ∀ s ∈ states, s.data ≠ [] ∧ 1 ≤ s.bs ∧ s.idx.length = s.data.length ∧
        s.pos ≤ s.data.length ∧ ∀ i ∈ s.idx, i < s.data.length) :
    (∀ mb, (nextData dropLast rand states).1 = some mb →
        ∀ s ∈ states, ∃ e, (s.key, e) ∈ mb ∧ e ∈ s.data) ∧
    ((nextData dropLast rand states).1 = none ↔
        ∀ s ∈ states, (nextDataEtype dropLast s).1 = none) := by
  constructor
  · intro mb hmb s hs
    obtain ⟨hne, hbs, hlen, hpos, hidx⟩ := hinv s hs
    have hflat := nextData_some_eq_flatMap dropLast rand states mb hmb
    subst hflat
    cases hcase : (nextDataEtype dropLast s).1 with
    | none =>
      refine ⟨randGen (rand s.key) s, ?_, ?_⟩
      · rw [List.mem_flatMap]
        refine ⟨s, hs, ?_⟩
        unfold etypeContrib
        rw [hcase]
        simp
      · unfold randGen
        have hlt : (rand s.key) % s.data.length < s.data.length :=
          Nat.mod_lt _ (List.length_pos.mpr hne)
        rw [List.getD_eq_getElem s.data 0 hlt]
        exact List.getElem_mem hlt
    | some b =>
      obtain ⟨hbne, hbmem⟩ := nextDataEtype_some_spec dropLast s b hbs hlen hpos hidx hcase
      obtain ⟨e, he⟩ := List.exists_mem_of_ne_nil b hbne
      refine ⟨e, ?_, hbmem e he⟩
      rw [List.mem_flatMap]
      refine ⟨s, hs, ?_⟩
      unfold etypeContrib
      rw [hcase]
      exact List.mem_map_of_mem _ he
  · exact nextData_none_iff dropLast rand states

/-- Witness for C1: the invariants hold and the conclusion follows at a concrete
two-edge-type loader state. -/
theorem allEtype_minibatch_covers_all_etypes_witness :
    (∀ s ∈ [({ key := 0, data := [5, 7], idx := [0, 1], bs := 1, pos := 0 } : EtypeState),
            ({ key := 1, data := [9], idx := [0], bs := 1, pos := 0 } : EtypeState)],
        s.data ≠ [] ∧ 1 ≤ s.bs ∧ s.idx.length = s.data.length ∧
        s.pos ≤ s.data.length ∧ ∀ i ∈ s.idx, i < s.data.length) ∧
    ((∀ mb, (nextData false (fun _ => 0)
          [({ key := 0, data := [5, 7], idx := [0, 1], bs := 1, pos := 0 } : EtypeState),
           ({ key := 1, data := [9], idx := [0], bs := 1, pos := 0 } : EtypeState)]).1 = some mb →
        ∀ s ∈ [({ key := 0, data := [5, 7], idx := [0, 1], bs := 1, pos := 0 } : EtypeState),
               ({ key := 1, data := [9], idx := [0], bs := 1, pos := 0 } : EtypeState)],
          ∃ e, (s.key, e) ∈ mb ∧ e ∈ s.data) ∧
     ((nextData false (fun _ => 0)
          [({ key := 0, data := [5, 7], idx := [0, 1], bs := 1, pos := 0 } : EtypeState),
           ({ key := 1, data := [9], idx := [0], bs := 1, pos := 0 } : EtypeState)]).1 = none ↔
        ∀ s ∈ [({ key := 0, data := [5, 7], idx := [0, 1], bs := 1, pos := 0 } : EtypeState),
               ({ key := 1, data := [9], idx := [0], bs := 1, pos := 0 } : EtypeState)],
          (nextDataEtype false s).1 = none)) :=
  ⟨by decide, allEtype_minibatch_covers_all_etypes false (fun _ => 0) _ (by decide)⟩

theorem expIdxsPerType_eq_ceil (c bs : Nat) (hbs : 0 < bs) :
    expIdxsPerType false c bs = ceilNat c bs := by
  unfold expIdxsPerType ceilNat
  rcases Nat.eq_zero_or_pos c with hc | hc
  · subst hc
    simp [Nat.zero_div, Nat.zero_mod]
    exact (Nat.div_eq_of_lt (by omega)).symm
  have hdm := Nat.div_add_mod c bs
  by_cases hr : c % bs = 0
  · simp [hr]
    have heq : c + bs - 1 = bs * (c / bs) + (bs - 1) := by omega
    rw [heq, Nat.mul_add_div hbs]
    have h0 : (bs - 1) / bs = 0 := Nat.div_eq_of_lt (by omega)
    omega
  · simp only [Bool.not_false, Bool.true_and, ne_eq, bne_iff_ne, hr, not_false_eq_true, if_true]
    have hmul : bs * (c / bs + 1) = bs * (c / bs) + bs := by ring
    have heq : c + bs - 1 = bs * (c / bs + 1) + (c % bs - 1) := by omega
    rw [heq, Nat.mul_add_div hbs]
    have hlt := Nat.mod_lt c hbs
    have h0 : (c % bs - 1) / bs = 0 := Nat.div_eq_of_lt (by omega)
    omega

theorem ceilNat_pos (a b : Nat) (hb : 0 < b) (hab : b ≤ a + b - 1) :
    1 ≤ ceilNat a b := by
  unfold ceilNat
  rw [Nat.le_div_iff_mul_le hb]
  omega

/-- Claim C2: for the per-edge-type balanced loader built with user batch size
`B` over a target-edge set with `c_t` edges of type `t` and total `T = sum c_t`,
`_reinit_dataset` assigns per-type batch size `ceil(B * c_t / T)` (hence at
least 1), and `expected_idxs` is the maximum over the types of
`ceil(c_t / bs_t)`.  Stated for the `drop_last = False` construction used by
the repository, with a positive batch size and nonempty per-type edge sets. -/
theorem reinit_bs_and_expected_idxs (batchSize : Nat) (dataset : List (Nat × List Int))
    (hB : 0 < batchSize) (hc : ∀ p ∈ dataset, p.2 ≠ []) :
    (∀ s ∈ (reinitDataset false batchSize dataset).states,
        s.bs = ceilNat (batchSize * s.data.length) ((dataset.map (fun p => p.2.length)).sum) ∧
        1 ≤ s.bs) ∧
    (reinitDataset false batchSize dataset).expected =
      ((reinitDataset false batchSize dataset).states.map
        (fun s => ceilNat s.data.length s.bs)).foldl max 0 := by
  have hbs_pos : ∀ s ∈ (reinitDataset false batchSize dataset).states, 1 ≤ s.bs := by
    intro s hs
    unfold reinitDataset at hs
    simp only [List.mem_map] at hs
    obtain ⟨p, hp, rfl⟩ := hs
    have hlen : 0 < p.2.length := List.length_pos.mpr (hc p hp)
    have htot : p.2.length ≤ (dataset.map (fun q => q.2.length)).sum :=
      List.single_le_sum (by intro x _; omega) _ (List.mem_map_of_mem _ hp)
    unfold bsPerType
    apply ceilNat_pos
    · omega
    · have := Nat.mul_pos hB hlen
      omega
  constructor
  · intro s hs
    refine ⟨?_, hbs_pos s hs⟩
    unfold reinitDataset at hs
    simp only [List.mem_map] at hs
    obtain ⟨p, hp, rfl⟩ := hs
    rfl
  · unfold reinitDataset
    simp only
    congr 1
    apply List.map_congr_left
    intro s hs
    have h1 : 1 ≤ s.bs := by
      apply hbs_pos
      unfold reinitDataset
      simpa using hs
    exact expIdxsPerType_eq_ceil s.data.length s.bs h1

/-- Witness for C2 at a concrete dataset: two edge types with 3 and 1 target
edges and user batch size 2. -/
theorem reinit_bs_and_expected_idxs_witness :
    (0 < 2 ∧ ∀ p ∈ [((0 : Nat), [(10 : Int), 11, 12]), (1, [20])], p.2 ≠ []) ∧
    ((∀ s ∈ (reinitDataset false 2 [((0 : Nat), [(10 : Int), 11, 12]), (1, [20])]).states,
        s.bs = ceilNat (2 * s.data.length)
          (([((0 : Nat), [(10 : Int), 11, 12]), (1, [20])].map (fun p => p.2.length)).sum) ∧
        1 ≤ s.bs) ∧
     (reinitDataset false 2 [((0 : Nat), [(10 : Int), 11, 12]), (1, [20])]).expected =
       ((reinitDataset false 2 [((0 : Nat), [(10 : Int), 11, 12]), (1, [20])]).states.map
         (fun s => ceilNat s.data.length s.bs)).foldl max 0) :=
  ⟨⟨by decide, by decide⟩,
   reinit_bs_and_expected_idxs 2 [((0 : Nat), [(10 : Int), 11, 12]), (1, [20])]
     (by decide) (by decide)⟩

/-- Counterexample to C3 as stated: with drop-last mode ON, an edge type whose
positives are exhausted does not stop contributing: `_next_data` still gives it
one randomly re-drawn edge in the next minibatch, because the random-redraw
branch of `_next_data` does not test `drop_last`. -/
theorem drop_last_exhausted_still_contributes :
    (nextDataEtype true { key := 0, data := [10], idx := [0], bs := 1, pos := 1 }).1 = none ∧
    (nextData true (fun _ => 0)
        [{ key := 0, data := [10], idx := [0], bs := 1, pos := 1 },
         { key := 1, data := [20, 21], idx := [0, 1], bs := 1, pos := 0 }]).1 =
      some [(0, 10), (1, 20)] := by
  decide

theorem filter_flatMap_single (dropLast : Bool) (rand : Nat → Nat) :
    ∀ (states : List EtypeState) (s : EtypeState),
      states.Pairwise (fun a b => a.key ≠ b.key) → s ∈ states →
      (nextDataEtype dropLast s).1 = none →
      (states.flatMap (etypeContrib dropLast rand)).filter (fun q => q.1 == s.key) =
        [(s.key, randGen (rand s.key) s)] := by
  intro states
  induction states with
  | nil => intro s _ hs _; simp at hs
  | cons t rest ih =>
    intro s hpw hs hex
    rw [List.pairwise_cons] at hpw
    rw [List.flatMap_cons, List.filter_append]
    rcases List.mem_cons.mp hs with heq | htail
    · subst heq
      have h1 : (etypeContrib dropLast rand s).filter (fun q => q.1 == s.key) =
          [(s.key, randGen (rand s.key) s)] := by
        unfold etypeContrib
        rw [hex]
        simp
      have h2 : (rest.flatMap (etypeContrib dropLast rand)).filter
          (fun q => q.1 == s.key) = [] := by
        rw [List.filter_eq_nil_iff]
        intro q hq
        rw [List.mem_flatMap] at hq
        obtain ⟨u, hu, hqu⟩ := hq
        have hk := etypeContrib_key dropLast rand u q hqu
        simp only [hk, beq_iff_eq]
        exact fun hcon => (hpw.1 u hu) hcon.symm
      rw [h1, h2, List.append_nil]
    · have hne : t.key ≠ s.key := hpw.1 s htail
      have h1 : (etypeContrib dropLast rand t).filter (fun q => q.1 == s.key) = [] := by
        rw [List.filter_eq_nil_iff]
        intro q hq
        have hk := etypeContrib_key dropLast rand t q hq
        simp only [hk, beq_iff_eq]
        exact hne
      rw [h1, List.nil_append]
      exact ih s hpw.2 htail hex

/-- Claim C3 (amended): an edge type that has reached its exhaustion condition
before end-of-epoch contributes exactly one randomly re-drawn edge to every
remaining minibatch regardless of the drop-last mode; drop-last only changes
when exhaustion happens (a trailing partial batch is dropped instead of
emitted). -/
theorem exhausted_etype_contributes_one_random_edge
    (dropLast : Bool) (rand : Nat → Nat) (states : List EtypeState) (s : EtypeState)
    (hpw : states.Pairwise (fun a b => a.key ≠ b.key))
    (hs : s ∈ states) (hex : (nextDataEtype dropLast s).1 = none)
    (mb : List (Nat × Int)) (hmb : (nextData dropLast rand states).1 = some mb) :
    mb.filter (fun q => q.1 == s.key) = [(s.key, randGen (rand s.key) s)] := by
  rw [nextData_some_eq_flatMap dropLast rand states mb hmb]
  exact filter_flatMap_single dropLast rand states s hpw hs hex

/-- Witness for the amended C3 at a concrete drop-last loader state. -/
theorem exhausted_etype_contributes_one_random_edge_witness :
    (([({ key := 0, data := [10], idx := [0], bs := 1, pos := 1 } : EtypeState),
       ({ key := 1, data := [20, 21], idx := [0, 1], bs := 1, pos := 0 } : EtypeState)].Pairwise
         (fun a b => a.key ≠ b.key)) ∧
     (nextDataEtype true ({ key := 0, data := [10], idx := [0], bs := 1, pos := 1 } :
         EtypeState)).1 = none ∧
     (nextData true (fun _ => 0)
        [({ key := 0, data := [10], idx := [0], bs := 1, pos := 1 } : EtypeState),
         ({ key := 1, data := [20, 21], idx := [0, 1], bs := 1, pos := 0 } : EtypeState)]).1 =
       some [(0, 10), (1, 20)]) ∧
    [((0 : Nat), (10 : Int)), (1, 20)].filter (fun q => q.1 == 0) = [(0, 10)] :=
  ⟨⟨by decide, by decide, by decide⟩,
   exhausted_etype_contributes_one_random_edge true (fun _ => 0)
     [({ key := 0, data := [10], idx := [0], bs := 1, pos := 1 } : EtypeState),
      ({ key := 1, data := [20, 21], idx := [0, 1], bs := 1, pos := 0 } : EtypeState)]
     ({ key := 0, data := [10], idx := [0], bs := 1, pos := 1 } : EtypeState)
     (by decide) (by decide) (by decide) [(0, 10), (1, 20)] (by decide)⟩

theorem lookupEtype_mem_snd (m : List (Nat × Nat)) (e r : Nat)
    (h : lookupEtype m e = some r) : r ∈ m.map Prod.snd := by
  induction m with
  | nil => simp [lookupEtype] at h
  | cons p rest ih =>
    obtain ⟨k, v⟩ := p
    simp only [lookupEtype] at h
    by_cases hk : k = e
    · simp [hk] at h
      simp [h]
    · simp [hk] at h
      simp [ih h]

theorem computeTargetEtypes_step1 (m : List (Nat × Nat)) (i : Nat) (acc : List Nat)
    (h : i < acc.length) (r : Nat) (hl : lookupEtype m (acc.get ⟨i, h⟩) = some r)
    (hr : r ∈ acc) : computeTargetEtypes m i acc = computeTargetEtypes m (i+1) acc := by
  rw [computeTargetEtypes, dif_pos h]
  simp only [List.get_eq_getElem] at hl
  split
  · rename_i r2 hl2
    have heq := hl.symm.trans hl2
    injection heq with heq
    subst heq
    rw [if_pos hr]
  · rename_i hl2
    simp [hl] at hl2

theorem computeTargetEtypes_step2 (m : List (Nat × Nat)) (i : Nat) (acc : List Nat)
    (h : i < acc.length) (r : Nat) (hl : lookupEtype m (acc.get ⟨i, h⟩) = some r)
    (hr : r ∉ acc) : computeTargetEtypes m i acc = computeTargetEtypes m (i+1) (acc ++ [r]) := by
  rw [computeTargetEtypes, dif_pos h]
  simp only [List.get_eq_getElem] at hl
  split
  · rename_i r2 hl2
    have heq := hl.symm.trans hl2
    injection heq with heq
    subst heq
    rw [if_neg hr]
  · rename_i hl2
    simp [hl] at hl2

theorem computeTargetEtypes_step3 (m : List (Nat × Nat)) (i : Nat) (acc : List Nat)
    (h : i < acc.length) (hl : lookupEtype m (acc.get ⟨i, h⟩) = none) :
    computeTargetEtypes m i acc = computeTargetEtypes m (i+1) acc := by
  rw [computeTargetEtypes, dif_pos h]
  simp only [List.get_eq_getElem] at hl
  split
  · rename_i r2 hl2
    simp [hl] at hl2
  · rfl

theorem computeTargetEtypes_stop (m : List (Nat × Nat)) (i : Nat) (acc : List Nat)
    (h : ¬ i < acc.length) : computeTargetEtypes m i acc = acc := by
  rw [computeTargetEtypes]
  simp [h]

theorem computeTargetEtypes_mem_mono (m : List (Nat × Nat)) :
    ∀ (i : Nat) (acc : List Nat) (e : Nat), e ∈ acc → e ∈ computeTargetEtypes m i acc := by
  intro i acc
  induction i, acc using computeTargetEtypes.induct m with
  | case1 i acc h r hl hr ih =>
    intro e he
    rw [computeTargetEtypes_step1 m i acc h r hl hr]
    exact ih e he
  | case2 i acc h r hl hr ih =>
    intro e he
    rw [computeTargetEtypes_step2 m i acc h r hl hr]
    exact ih e (List.mem_append_left _ he)
  | case3 i acc h hl ih =>
    intro e he
    rw [computeTargetEtypes_step3 m i acc h hl]
    exact ih e he
  | case4 i acc h =>
    intro e he
    rw [computeTargetEtypes_stop m i acc h]
    exact he

theorem computeTargetEtypes_sound (m : List (Nat × Nat)) :
    ∀ (i : Nat) (acc : List Nat) (e : Nat),
      e ∈ computeTargetEtypes m i acc → e ∈ acc ∨ e ∈ m.map Prod.snd := by
  intro i acc
  induction i, acc using computeTargetEtypes.induct m with
  | case1 i acc h r hl hr ih =>
    intro e he
    rw [computeTargetEtypes_step1 m i acc h r hl hr] at he
    exact ih e he
  | case2 i acc h r hl hr ih =>
    intro e he
    rw [computeTargetEtypes_step2 m i acc h r hl hr] at he
    rcases ih e he with hacc | hm
    · rw [List.mem_append] at hacc
      rcases hacc with h1 | h1
      · exact Or.inl h1
      · simp at h1
        subst h1
        exact Or.inr (lookupEtype_mem_snd m _ _ hl)
    · exact Or.inr hm
  | case3 i acc h hl ih =>
    intro e he
    rw [computeTargetEtypes_step3 m i acc h hl] at he
    exact ih e he
  | case4 i acc h =>
    intro e he
    rw [computeTargetEtypes_stop m i acc h] at he
    exact Or.inl he

theorem computeTargetEtypes_closed (m : List (Nat × Nat)) :
    ∀ (i : Nat) (acc : List Nat),
      (∀ e ∈ acc.take i, ∀ r, lookupEtype m e = some r → r ∈ acc) →
      ∀ e ∈ computeTargetEtypes m i acc, ∀ r2, lookupEtype m e = some r2 →
        r2 ∈ computeTargetEtypes m i acc := by
  intro i acc
  induction i, acc using computeTargetEtypes.induct m with
  | case1 i acc h r hl hr ih =>
    intro H
    rw [computeTargetEtypes_step1 m i acc h r hl hr]
    apply ih
    intro e he r2 hl2
    rw [List.take_succ] at he
    rw [List.mem_append] at he
    rcases he with he | he
    · exact H e he r2 hl2
    · have hsome : acc[i]? = some (acc.get ⟨i, h⟩) := by
        rw [List.getElem?_eq_getElem h]
        simp [List.get_eq_getElem]
      rw [hsome] at he
      simp at he
      subst he
      have heq := hl.symm.trans hl2
      injection heq with heq
      rw [← heq]
      exact hr
  | case2 i acc h r hl hr ih =>
    intro H
    rw [computeTargetEtypes_step2 m i acc h r hl hr]
    apply ih
    intro e he r2 hl2
    have htk : (acc ++ [r]).take (i+1) = acc.take (i+1) :=
      List.take_append_of_le_length (by omega)
    rw [htk, List.take_succ, List.mem_append] at he
    rcases he with he | he
    · exact List.mem_append_left _ (H e he r2 hl2)
    · have hsome : acc[i]? = some (acc.get ⟨i, h⟩) := by
        rw [List.getElem?_eq_getElem h]
        simp [List.get_eq_getElem]
      rw [hsome] at he
      simp at he
      subst he
      have heq := hl.symm.trans hl2
      injection heq with heq
      rw [← heq]
      exact List.mem_append_right _ (by simp)
  | case3 i acc h hl ih =>
    intro H
    rw [computeTargetEtypes_step3 m i acc h hl]
    apply ih
    intro e he r2 hl2
    rw [List.take_succ, List.mem_append] at he
    rcases he with he | he
    · exact H e he r2 hl2
    · have hsome : acc[i]? = some (acc.get ⟨i, h⟩) := by
        rw [List.getElem?_eq_getElem h]
        simp [List.get_eq_getElem]
      rw [hsome] at he
      simp at he
      subst he
      have hcon := hl.symm.trans hl2
      cases hcon
  | case4 i acc h =>
    intro H
    rw [computeTargetEtypes_stop m i acc h]
    have : acc.take i = acc := List.take_of_length_le (by omega)
    rw [this] at H
    exact H

/-- Counterexample to C4 as stated: with target edge type `0` and reverse map
`{0 ↦ 1, 1 ↦ 2}`, the loop of `GSgnnEdgeDataLoader.__init__` also processes the
appended reverse type `1` and therefore masks `2` as well, although `2` is
neither a target type nor the mapped reverse of a target type. -/
theorem masked_etypes_not_just_direct_reverses :
    computeTargetEtypes [(0, 1), (1, 2)] 0 [0] = [0, 1, 2] ∧
    specMaskedEtypes [(0, 1), (1, 2)] [0] = [0, 1] ∧
    2 ∈ computeTargetEtypes [(0, 1), (1, 2)] 0 [0] ∧
    2 ∉ specMaskedEtypes [(0, 1), (1, 2)] [0] := by
  have h1 : computeTargetEtypes [(0, 1), (1, 2)] 0 [0] = [0, 1, 2] := by
    simp [computeTargetEtypes, lookupEtype]
  have h2 : specMaskedEtypes [(0, 1), (1, 2)] [0] = [0, 1] := by
    simp [specMaskedEtypes, lookupEtype, List.filterMap]
  refine ⟨h1, h2, ?_, ?_⟩
  · rw [h1]; simp
  · rw [h2]; simp

/-- Claim C4 (amended): the set of edge types masked out of neighbor sampling
at every fanout hop is the closure of the target edge types under the
reverse-edge-type map: it contains every target type; it is closed under the
reverse map (the constructor loop also processes the reverse types it appends);
every masked type is a target type or the image of some entry of the reverse
map; and the modified fanout is 0 at every hop for every masked type.  The
exclusion of these types from sampled blocks is delegated to the external
neighbor sampler via this fanout. -/
theorem masked_etypes_closure (m : List (Nat × Nat)) (targets : List Nat)
    (fanout : List (Nat → Nat)) :
    (∀ e ∈ targets, e ∈ computeTargetEtypes m 0 targets) ∧
    (∀ e ∈ computeTargetEtypes m 0 targets, ∀ r, lookupEtype m e = some r →
        r ∈ computeTargetEtypes m 0 targets) ∧
    (∀ e ∈ computeTargetEtypes m 0 targets, e ∈ targets ∨ e ∈ m.map Prod.snd) ∧
    (∀ hop ∈ modify_fanout_for_target_etype fanout (computeTargetEtypes m 0 targets),
        ∀ e ∈ computeTargetEtypes m 0 targets, hop e = 0) := by
  refine ⟨?_, ?_, ?_, ?_⟩
  · intro e he
    exact computeTargetEtypes_mem_mono m 0 targets e he
  · intro e he r hl
    refine computeTargetEtypes_closed m 0 targets ?_ e he r hl
    intro e2 he2
    simp at he2
  · intro e he
    exact computeTargetEtypes_sound m 0 targets e he
  · intro hop hhop e he
    unfold modify_fanout_for_target_etype at hhop
    rw [List.mem_map] at hhop
    obtain ⟨f, _, rfl⟩ := hhop
    simp [he]

/-- Witness for the amended C4 at the counterexample input. -/
theorem masked_etypes_closure_witness :
    (∀ e ∈ [0], e ∈ computeTargetEtypes [(0, 1), (1, 2)] 0 [0]) ∧
    (∀ e ∈ computeTargetEtypes [(0, 1), (1, 2)] 0 [0], ∀ r,
        lookupEtype [(0, 1), (1, 2)] e = some r →
        r ∈ computeTargetEtypes [(0, 1), (1, 2)] 0 [0]) ∧
    (∀ e ∈ computeTargetEtypes [(0, 1), (1, 2)] 0 [0],
        e ∈ [0] ∨ e ∈ [(0, 1), (1, 2)].map Prod.snd) ∧
    (∀ hop ∈ modify_fanout_for_target_etype [fun _ => 15]
        (computeTargetEtypes [(0, 1), (1, 2)] 0 [0]),
        ∀ e ∈ computeTargetEtypes [(0, 1), (1, 2)] 0 [0], hop e = 0) :=
  masked_etypes_closure [(0, 1), (1, 2)] [0] [fun _ => 15]

/-- Counterexample to C5 as stated: with an empty requested-node-type list,
every requested type vacuously has a feature-bearing incoming edge type, yet
construction fails (`assert len(self._subg_etypes) > 0`). -/
theorem recon_empty_request_fails :
    (∀ dst ∈ ([] : List String), ∃ e ∈ [("a", "r", "b")],
        e.2.2 = dst ∧ (fun _ : String => true) e.1 = true) ∧
    reconInit [("a", "r", "b")] (fun _ => true) [] 5 = none := by
  constructor
  · intro dst hdst
    simp at hdst
  · rfl

theorem reconSubgEtypes_mem (etypes : List (String × String × String))
    (hasNodeFeats : String → Bool) (cn : List String) (e : String × String × String) :
    e ∈ reconSubgEtypes etypes hasNodeFeats cn ↔
      e ∈ etypes ∧ e.2.2 ∈ cn ∧ hasNodeFeats e.1 = true := by
  unfold reconSubgEtypes
  simp only [List.mem_flatMap, List.mem_filter, Bool.and_eq_true, beq_iff_eq]
  constructor
  · rintro ⟨a, ha, he, hdst, hfeat⟩
    exact ⟨he, hdst ▸ ha, hfeat⟩
  · rintro ⟨he, hcn2, hfeat⟩
    exact ⟨e.2.2, hcn2, he, rfl, hfeat⟩

theorem reconRemainNtypes_empty_iff (etypes : List (String × String × String))
    (hasNodeFeats : String → Bool) (cn : List String) :
    (reconRemainNtypes etypes hasNodeFeats cn).isEmpty = true ↔
      ∀ dst ∈ cn, ∃ e ∈ etypes, e.2.2 = dst ∧ hasNodeFeats e.1 = true := by
  unfold reconRemainNtypes reconTargetNtypes
  rw [List.isEmpty_iff, List.filter_eq_nil_iff]
  constructor
  · intro h dst hdst
    have h2 := h dst hdst
    simp only [Bool.not_eq_true', Bool.not_eq_false] at h2
    have h3 : dst ∈ cn.filter (fun dst =>
        etypes.any (fun e => e.2.2 == dst && hasNodeFeats e.1)) := by
      simpa using h2
    rw [List.mem_filter] at h3
    have h4 := h3.2
    simp only [List.any_eq_true, Bool.and_eq_true, beq_iff_eq] at h4
    obtain ⟨e, he, hdst2, hfeat⟩ := h4
    exact ⟨e, he, hdst2, hfeat⟩
  · intro h dst hdst
    simp only [Bool.not_eq_true', Bool.not_eq_false]
    have h3 : dst ∈ cn.filter (fun dst =>
        etypes.any (fun e => e.2.2 == dst && hasNodeFeats e.1)) := by
      rw [List.mem_filter]
      refine ⟨hdst, ?_⟩
      simp only [List.any_eq_true, Bool.and_eq_true, beq_iff_eq]
      obtain ⟨e, he, hdst2, hfeat⟩ := h dst hdst
      exact ⟨e, he, hdst2, hfeat⟩
    simpa using h3

/-- Claim C5 (amended): for a valid fanout and a nonempty requested list of
node types, construction of the feature-reconstruction sampler fails exactly
when some requested node type has no incoming edge type whose source node type
carries stored node features; on success the fanout mapping assigns the
configured fanout to exactly the feature-bearing incoming edge types of the
requested node types and 0 to every other edge type. -/
theorem recon_init_feature_check (etypes : List (String × String × String))
    (hasNodeFeats : String → Bool) (cn : List String) (fanout : Int)
    (hf : fanout > 0 ∨ fanout = -1) (hcn : cn ≠ []) :
    (reconInit etypes hasNodeFeats cn fanout = none ↔
      ∃ dst ∈ cn, ∀ e ∈ etypes, e.2.2 = dst → hasNodeFeats e.1 = false) ∧
    (∀ se fm, reconInit etypes hasNodeFeats cn fanout = some (se, fm) →
      se = reconSubgEtypes etypes hasNodeFeats cn ∧
      fm = etypes.map (fun e =>
        (e, if e.2.2 ∈ cn ∧ hasNodeFeats e.1 = true then fanout else 0))) := by
  constructor
  · unfold reconInit
    rw [if_pos hf]
    by_cases hre : (reconRemainNtypes etypes hasNodeFeats cn).isEmpty = true
    · rw [if_pos hre]
      have hall := (reconRemainNtypes_empty_iff etypes hasNodeFeats cn).mp hre
      have hsub : ¬ (reconSubgEtypes etypes hasNodeFeats cn).isEmpty = true := by
        obtain ⟨d, hd⟩ := List.exists_mem_of_ne_nil cn hcn
        obtain ⟨e, he, hdst, hfeat⟩ := hall d hd
        intro hcon
        rw [List.isEmpty_iff] at hcon
        have hmem : e ∈ reconSubgEtypes etypes hasNodeFeats cn :=
          (reconSubgEtypes_mem etypes hasNodeFeats cn e).mpr ⟨he, hdst ▸ hd, hfeat⟩
        rw [hcon] at hmem
        simp at hmem
      rw [if_neg hsub]
      constructor
      · intro hcon
        simp at hcon
      · rintro ⟨dst, hdst, hbad⟩
        obtain ⟨e, he, hdst2, hfeat⟩ := hall dst hdst
        have hff := hbad e he hdst2
        rw [hfeat] at hff
        cases hff
    · rw [if_neg hre]
      constructor
      · intro _
        have hne : reconRemainNtypes etypes hasNodeFeats cn ≠ [] := by
          intro hcon
          apply hre
          rw [List.isEmpty_iff]
          exact hcon
        obtain ⟨d, hd⟩ := List.exists_mem_of_ne_nil _ hne
        unfold reconRemainNtypes at hd
        rw [List.mem_filter] at hd
        obtain ⟨hdcn, hdnot⟩ := hd
        refine ⟨d, hdcn, ?_⟩
        intro e he hdst
        by_contra hfcon
        rw [Bool.not_eq_false] at hfcon
        apply (by simpa using hdnot : d ∉ reconTargetNtypes etypes hasNodeFeats cn)
        unfold reconTargetNtypes
        rw [List.mem_filter]
        refine ⟨hdcn, ?_⟩
        simp only [List.any_eq_true, Bool.and_eq_true, beq_iff_eq]
        exact ⟨e, he, hdst, hfcon⟩
      · intro _
        rfl
  · intro se fm hsf
    unfold reconInit at hsf
    rw [if_pos hf] at hsf
    by_cases hre : (reconRemainNtypes etypes hasNodeFeats cn).isEmpty = true
    · rw [if_pos hre] at hsf
      by_cases hse : (reconSubgEtypes etypes hasNodeFeats cn).isEmpty = true
      · rw [if_pos hse] at hsf
        cases hsf
      · rw [if_neg hse] at hsf
        injection hsf with hsf
        have hse2 := congrArg Prod.fst hsf
        have hfm := congrArg Prod.snd hsf
        simp only at hse2 hfm
        refine ⟨hse2.symm, ?_⟩
        rw [← hfm]
        apply List.map_congr_left
        intro e he
        have hiff : (reconSubgEtypes etypes hasNodeFeats cn).contains e = true ↔
            (e.2.2 ∈ cn ∧ hasNodeFeats e.1 = true) := by
          have hcm : (reconSubgEtypes etypes hasNodeFeats cn).contains e = true ↔
              e ∈ reconSubgEtypes etypes hasNodeFeats cn := by simp
          rw [hcm, reconSubgEtypes_mem etypes hasNodeFeats cn e]
          constructor
          · rintro ⟨_, h1, h2⟩
            exact ⟨h1, h2⟩
          · rintro ⟨h1, h2⟩
            exact ⟨he, h1, h2⟩
        by_cases hc : e.2.2 ∈ cn ∧ hasNodeFeats e.1 = true
        · rw [if_pos (hiff.mpr hc), if_pos hc]
        · rw [if_neg ?_, if_neg hc]
          intro hcon
          exact hc (hiff.mp hcon)
    · rw [if_neg hre] at hsf
      cases hsf

/-- Witness for the amended C5: one graph edge type writer-to-paper whose
source carries features, requested node type list ["paper"]. -/
theorem recon_init_feature_check_witness :
    (((5 : Int) > 0 ∨ (5 : Int) = -1) ∧ ["paper"] ≠ ([] : List String)) ∧
    ((reconInit [("author", "writes", "paper")]
        (fun n => n == "author") ["paper"] 5 = none ↔
      ∃ dst ∈ ["paper"], ∀ e ∈ [("author", "writes", "paper")],
        e.2.2 = dst → (fun n : String => n == "author") e.1 = false) ∧
     (∀ se fm, reconInit [("author", "writes", "paper")]
        (fun n => n == "author") ["paper"] 5 = some (se, fm) →
      se = reconSubgEtypes [("author", "writes", "paper")]
        (fun n => n == "author") ["paper"] ∧
      fm = [("author", "writes", "paper")].map (fun e =>
        (e, if e.2.2 ∈ ["paper"] ∧ (fun n : String => n == "author") e.1 = true
            then (5 : Int) else 0)))) :=
  ⟨⟨by decide, by decide⟩,
   recon_init_feature_check [("author", "writes", "paper")]
     (fun n => n == "author") ["paper"] 5 (by decide) (by decide)⟩

/-- Claim C6: for the edge, link-prediction and node dataloaders with a
configured feature-reconstruction sampler, a batch with a nonempty block list
is returned with the reconstruction block inserted at position 0 before the
original blocks and with the input-node set replaced by the sample's expanded
input-node set; a batch with an empty block list (or a loader with no
reconstruction sampler) is returned unmodified. -/
theorem next_prepends_reconstruction_block {ι γ σ β : Type}
    (sample : ι → β × ι) (i : ι) (g pg ng : γ) (sd : σ) (blocks : List β)
    (hne : blocks ≠ []) :
    (gsgnnEdgeDataLoaderNext (some sample) i g blocks =
        ((sample i).2, g, (sample i).1 :: blocks) ∧
      gsgnnEdgeDataLoaderNext (some sample) i g ([] : List β) = (i, g, []) ∧
      gsgnnEdgeDataLoaderNext (none : Option (ι → β × ι)) i g blocks = (i, g, blocks)) ∧
    (gsgnnLPDataLoaderNext (some sample) i pg ng blocks =
        ((sample i).2, pg, ng, (sample i).1 :: blocks) ∧
      gsgnnLPDataLoaderNext (some sample) i pg ng ([] : List β) = (i, pg, ng, []) ∧
      gsgnnLPDataLoaderNext (none : Option (ι → β × ι)) i pg ng blocks = (i, pg, ng, blocks)) ∧
    (gsgnnNodeDataLoaderNext (some sample) i sd blocks =
        ((sample i).2, sd, (sample i).1 :: blocks) ∧
      gsgnnNodeDataLoaderNext (some sample) i sd ([] : List β) = (i, sd, []) ∧
      gsgnnNodeDataLoaderNext (none : Option (ι → β × ι)) i sd blocks = (i, sd, blocks)) := by
  have hlen : 0 < blocks.length := List.length_pos.mpr hne
  unfold gsgnnEdgeDataLoaderNext gsgnnLPDataLoaderNext gsgnnNodeDataLoaderNext
  refine ⟨⟨?_, ?_, rfl⟩, ⟨?_, ?_, rfl⟩, ⟨?_, ?_, rfl⟩⟩ <;> simp [hlen]

/-- Witness for C6 with natural-number stand-ins for the batch components. -/
theorem next_prepends_reconstruction_block_witness :
    ([10] ≠ ([] : List Nat)) ∧
    ((gsgnnEdgeDataLoaderNext (some (fun n : Nat => (n + 1, n * 2))) 3 7 [10] =
        (6, 7, [4, 10]) ∧
      gsgnnEdgeDataLoaderNext (some (fun n : Nat => (n + 1, n * 2))) 3 7 ([] : List Nat) =
        (3, 7, []) ∧
      gsgnnEdgeDataLoaderNext (none : Option (Nat → Nat × Nat)) 3 7 [10] = (3, 7, [10])) ∧
     (gsgnnLPDataLoaderNext (some (fun n : Nat => (n + 1, n * 2))) 3 7 8 [10] =
        (6, 7, 8, [4, 10]) ∧
      gsgnnLPDataLoaderNext (some (fun n : Nat => (n + 1, n * 2))) 3 7 8 ([] : List Nat) =
        (3, 7, 8, []) ∧
      gsgnnLPDataLoaderNext (none : Option (Nat → Nat × Nat)) 3 7 8 [10] = (3, 7, 8, [10])) ∧
     (gsgnnNodeDataLoaderNext (some (fun n : Nat => (n + 1, n * 2))) 3 9 [10] =
        (6, 9, [4, 10]) ∧
      gsgnnNodeDataLoaderNext (some (fun n : Nat => (n + 1, n * 2))) 3 9 ([] : List Nat) =
        (3, 9, []) ∧
      gsgnnNodeDataLoaderNext (none : Option (Nat → Nat × Nat)) 3 9 [10] = (3, 9, [10]))) :=
  ⟨by decide, next_prepends_reconstruction_block
    (fun n : Nat => (n + 1, n * 2)) 3 7 7 8 9 [10] (by decide)⟩

/-- Counterexample to C7 as stated: the edge-prediction dataloader's
`_prepare_dataloader` (lines 245-261) has no trimming step, so with
`train_task=True` and 4 distributed workers a target tensor of 5 IDs is passed
through unchanged, its length not evenly divisible by the worker count — while
the trimming step of the link-prediction/node loaders would have shortened it
to 4 IDs. -/
theorem edge_loader_train_not_trimmed :
    edgePrepareTargetIdx true [(0, [1, 2, 3, 4, 5])] = [(0, [1, 2, 3, 4, 5])] ∧
    ([(1 : Int), 2, 3, 4, 5].length % 4 ≠ 0) ∧
    prepareTargetIdx true 4 [(0, [1, 2, 3, 4, 5])] = [(0, [1, 2, 3, 4])] := by
  decide

/-- Claim C7 (amended): for the link-prediction and node dataloaders,
`train_task=True` replaces each target ID tensor at construction time by a
prefix of itself whose length is evenly divisible by the number of distributed
workers, and `train_task=False` returns the target index unchanged; the
edge-prediction dataloader's preparation step never trims the target index in
either mode; and the loader's iteration step never mutates the stored target
edge IDs (nor the key or index permutation) of any edge type — the
construction-time trim is the only mutation of the target index. -/
theorem target_idx_trimmed_once (numWorkers : Nat) (hw : 0 < numWorkers)
    (targetIdxs : List (Nat × List Int)) :
    (prepareTargetIdx false numWorkers targetIdxs = targetIdxs) ∧
    (prepareTargetIdx true numWorkers targetIdxs =
        targetIdxs.map (fun p => (p.1, trim_data numWorkers p.2)) ∧
      ∀ p ∈ prepareTargetIdx true numWorkers targetIdxs,
        ∃ q ∈ targetIdxs, p.1 = q.1 ∧ p.2 <+: q.2 ∧ p.2.length % numWorkers = 0) ∧
    (∀ trainTask : Bool, edgePrepareTargetIdx trainTask targetIdxs = targetIdxs) ∧
    (∀ (dropLast : Bool) (s : EtypeState),
        ((nextDataEtype dropLast s).2).key = s.key ∧
        ((nextDataEtype dropLast s).2).data = s.data ∧
        ((nextDataEtype dropLast s).2).idx = s.idx) ∧
    (∀ (dropLast : Bool) (rand : Nat → Nat) (states : List EtypeState),
        ((nextData dropLast rand states).2).map (fun s => (s.key, s.data)) =
          states.map (fun s => (s.key, s.data))) := by
  have hstep : ∀ (dropLast : Bool) (s : EtypeState),
      ((nextDataEtype dropLast s).2).key = s.key ∧
      ((nextDataEtype dropLast s).2).data = s.data ∧
      ((nextDataEtype dropLast s).2).idx = s.idx := by
    intro dropLast s
    unfold nextDataEtype
    split_ifs <;> exact ⟨rfl, rfl, rfl⟩
  refine ⟨?_, ⟨rfl, ?_⟩, ?_, hstep, ?_⟩
  · unfold prepareTargetIdx
    rfl
  · intro p hp
    unfold prepareTargetIdx at hp
    simp only [if_true] at hp
    rw [List.mem_map] at hp
    obtain ⟨q, hq, rfl⟩ := hp
    refine ⟨q, hq, rfl, ?_, ?_⟩
    · exact List.take_prefix _ _
    · unfold trim_data
      rw [List.length_take]
      have hmod := Nat.mod_lt q.2.length hw
      have hdm := Nat.div_add_mod q.2.length numWorkers
      have hmin : min (q.2.length - q.2.length % numWorkers) q.2.length =
          q.2.length - q.2.length % numWorkers := by omega
      rw [hmin]
      have : q.2.length - q.2.length % numWorkers = numWorkers * (q.2.length / numWorkers) := by
        omega
      rw [this]
      exact Nat.mul_mod_right _ _
  · intro trainTask
    cases trainTask <;> rfl
  · intro dropLast rand states
    unfold nextData
    by_cases hall : (states.map (fun s => (s, nextDataEtype dropLast s))).all
        (fun p => p.2.1.isNone) = true
    · simp only [hall, if_true, List.map_map]
      apply List.map_congr_left
      intro s _
      have := hstep dropLast s
      simp [Function.comp, this.1, this.2.1]
    · simp only [hall, Bool.false_eq_true, if_false, List.map_map]
      apply List.map_congr_left
      intro s _
      have := hstep dropLast s
      simp [Function.comp, this.1, this.2.1]

/-- Witness for C7 at a concrete target index and 4 workers. -/
theorem target_idx_trimmed_once_witness :
    (0 < 4) ∧
    ((prepareTargetIdx false 4 [(0, [1, 2, 3, 4, 5, 6])] = [(0, [1, 2, 3, 4, 5, 6])]) ∧
     (prepareTargetIdx true 4 [(0, [1, 2, 3, 4, 5, 6])] =
         [(0, [1, 2, 3, 4, 5, 6])].map (fun p => (p.1, trim_data 4 p.2)) ∧
       ∀ p ∈ prepareTargetIdx true 4 [(0, [1, 2, 3, 4, 5, 6])],
         ∃ q ∈ [(0, [1, 2, 3, 4, 5, 6])], p.1 = q.1 ∧ p.2 <+: q.2 ∧ p.2.length % 4 = 0) ∧
     (∀ trainTask : Bool,
        edgePrepareTargetIdx trainTask [(0, [1, 2, 3, 4, 5, 6])] =
          [(0, [1, 2, 3, 4, 5, 6])]) ∧
     (∀ (dropLast : Bool) (s : EtypeState),
         ((nextDataEtype dropLast s).2).key = s.key ∧
         ((nextDataEtype dropLast s).2).data = s.data ∧
         ((nextDataEtype dropLast s).2).idx = s.idx) ∧
     (∀ (dropLast : Bool) (rand : Nat → Nat) (states : List EtypeState),
         ((nextData dropLast rand states).2).map (fun s => (s.key, s.data)) =
           states.map (fun s => (s.key, s.data)))) :=
  ⟨by decide, target_idx_trimmed_once 4 (by decide) [(0, [1, 2, 3, 4, 5, 6])]⟩

/-- Claim C8: each of the edge, link-prediction and link-prediction-test
dataloader constructions fails (GraphTypeError) exactly when the target index
contains an edge-type key absent from the graph's canonical edge types — the
check covers every key, and failure happens at construction, before any
minibatch state is built. -/
theorem loader_init_etype_check (canonicalEtypes : List Nat) (revMap : List (Nat × Nat))
    (targetIdx : List (Nat × List Int)) :
    (gsgnnEdgeDataLoaderInit canonicalEtypes revMap targetIdx = none ↔
      ∃ p ∈ targetIdx, p.1 ∉ canonicalEtypes) ∧
    (gsgnnLPDataLoaderInit canonicalEtypes targetIdx = none ↔
      ∃ p ∈ targetIdx, p.1 ∉ canonicalEtypes) ∧
    (gsgnnLPTestDataLoaderInit canonicalEtypes targetIdx = none ↔
      ∃ p ∈ targetIdx, p.1 ∉ canonicalEtypes) := by
  have hkey : etypesInGraph canonicalEtypes targetIdx = true ↔
      ∀ p ∈ targetIdx, p.1 ∈ canonicalEtypes := by
    unfold etypesInGraph
    rw [List.all_eq_true]
    constructor
    · intro h p hp
      simpa using h p hp
    · intro h p hp
      simpa using h p hp
  refine ⟨?_, ?_, ?_⟩ <;>
    · simp only [gsgnnEdgeDataLoaderInit, gsgnnLPDataLoaderInit, gsgnnLPTestDataLoaderInit]
      by_cases hc : etypesInGraph canonicalEtypes targetIdx = true
      · simp only [hc, if_true]
        constructor
        · intro hcon
          cases hcon
        · rintro ⟨p, hp, hnot⟩
          exact absurd (hkey.mp hc p hp) hnot
      · simp only [hc, Bool.false_eq_true, if_false]
        constructor
        · intro _
          by_contra hcon
          push_neg at hcon
          exact hc (hkey.mpr hcon)
        · intro _
          trivial

theorem convert_nodes_error_of_mem (ds : List GDecl) (d : GDecl) (hd : d ∈ ds)
    (e : String) (herr : convertDecl d = Except.error e) :
    ∃ e2, convert_nodes ds = Except.error e2 := by
  induction ds with
  | nil => simp at hd
  | cons a rest ih =>
    rcases List.mem_cons.mp hd with heq | htail
    · subst heq
      refine ⟨e, ?_⟩
      unfold convert_nodes
      rw [herr]
    · obtain ⟨e2, he2⟩ := ih htail
      unfold convert_nodes
      cases hca : convertDecl a with
      | error e3 => exact ⟨e3, rfl⟩
      | ok r =>
        rw [he2]
        exact ⟨e2, rfl⟩

/-- Claim C9: `convert_nodes` (and `convert_edges`) raises ValueError when some
declaration's files contain a wildcard character such as * or ?, and raises
ValueError when some declaration carries a feature transform other than the
pass-through ("no-op") transform, for example max_min_norm. -/
theorem convert_rejects_wildcards_and_transforms (ds : List GDecl) (d : GDecl)
    (hd : d ∈ ds)
    (hbad : (∃ f ∈ d.files, hasWildcard f = true) ∨
      (∃ t ∈ d.featureTransforms, t ≠ "no-op")) :
    (∃ e, convert_nodes ds = Except.error e) ∧
    (∃ e, convert_edges ds = Except.error e) := by
  have herr : ∃ e, convertDecl d = Except.error e := by
    unfold convertDecl
    by_cases hw : d.files.any hasWildcard = true
    · rw [if_pos hw]
      exact ⟨_, rfl⟩
    · rw [if_neg hw]
      rcases hbad with hbadf | hbadt
      · exfalso
        apply hw
        rw [List.any_eq_true]
        obtain ⟨f, hf, hwf⟩ := hbadf
        exact ⟨f, hf, hwf⟩
      · have ht : d.featureTransforms.any (fun t => t != "no-op") = true := by
          rw [List.any_eq_true]
          obtain ⟨t, ht2, hne⟩ := hbadt
          exact ⟨t, ht2, by simpa using hne⟩
        rw [if_pos ht]
        exact ⟨_, rfl⟩
  obtain ⟨e, he⟩ := herr
  have h1 := convert_nodes_error_of_mem ds d hd e he
  exact ⟨h1, h1⟩

/-- Witness for C9 at the tests' inputs: the wildcard path `author*.parquet`
and the `max_min_norm` transform. -/
theorem convert_rejects_wildcards_and_transforms_witness :
    ((⟨["/tmp/acm_raw/nodes/author*.parquet"], []⟩ : GDecl) ∈
        [(⟨["/tmp/acm_raw/nodes/author*.parquet"], []⟩ : GDecl),
         (⟨["/tmp/x.parquet"], ["max_min_norm"]⟩ : GDecl)] ∧
      ((∃ f ∈ (⟨["/tmp/acm_raw/nodes/author*.parquet"], []⟩ : GDecl).files,
          hasWildcard f = true) ∨
        (∃ t ∈ (⟨["/tmp/acm_raw/nodes/author*.parquet"], []⟩ : GDecl).featureTransforms,
          t ≠ "no-op"))) ∧
    ((∃ e, convert_nodes
        [(⟨["/tmp/acm_raw/nodes/author*.parquet"], []⟩ : GDecl),
         (⟨["/tmp/x.parquet"], ["max_min_norm"]⟩ : GDecl)] = Except.error e) ∧
     (∃ e, convert_edges
        [(⟨["/tmp/acm_raw/nodes/author*.parquet"], []⟩ : GDecl),
         (⟨["/tmp/x.parquet"], ["max_min_norm"]⟩ : GDecl)] = Except.error e)) :=
  ⟨⟨by decide, by decide⟩,
   convert_rejects_wildcards_and_transforms
     [(⟨["/tmp/acm_raw/nodes/author*.parquet"], []⟩ : GDecl),
      (⟨["/tmp/x.parquet"], ["max_min_norm"]⟩ : GDecl)]
     (⟨["/tmp/acm_raw/nodes/author*.parquet"], []⟩ : GDecl)
     (by decide) (by decide)⟩

/-- Claim C10: `remove_test_mask` returns exactly the entries whose name does
not contain `test_mask` as a substring anywhere (not only as a suffix), keeping
their values; `train_mask` and `val_mask` entries are always preserved, and any
entry whose name merely contains `test_mask` is removed. -/
theorem remove_test_mask_spec (data : List (String × Int)) :
    (∀ p : String × Int, p ∈ remove_test_mask data ↔
        p ∈ data ∧ ¬ List.IsInfix "test_mask".data p.1.data) ∧
    (∀ v, ("train_mask", v) ∈ data → ("train_mask", v) ∈ remove_test_mask data) ∧
    (∀ v, ("val_mask", v) ∈ data → ("val_mask", v) ∈ remove_test_mask data) ∧
    (∀ p : String × Int, p ∈ data → List.IsInfix "test_mask".data p.1.data →
        p ∉ remove_test_mask data) := by
  have hmem : ∀ p : String × Int, p ∈ remove_test_mask data ↔
      p ∈ data ∧ ¬ List.IsInfix "test_mask".data p.1.data := by
    intro p
    unfold remove_test_mask
    rw [List.mem_filter]
    constructor
    · rintro ⟨hp, hf⟩
      refine ⟨hp, ?_⟩
      simp only [containsSub, Bool.not_eq_true', decide_eq_false_iff_not] at hf
      exact hf
    · rintro ⟨hp, hf⟩
      refine ⟨hp, ?_⟩
      simp only [containsSub, Bool.not_eq_true', decide_eq_false_iff_not]
      exact hf
  refine ⟨hmem, ?_, ?_, ?_⟩
  · intro v hv
    refine (hmem ("train_mask", v)).mpr ⟨hv, ?_⟩
    show ¬ List.IsInfix "test_mask".data "train_mask".data
    decide
  · intro v hv
    refine (hmem ("val_mask", v)).mpr ⟨hv, ?_⟩
    show ¬ List.IsInfix "test_mask".data "val_mask".data
    decide
  · intro p hp hinf hcon
    exact ((hmem p).mp hcon).2 hinf

/-- Witness for C10 at a concrete tensor dict: `test_mask`, a name that merely
contains `test_mask`, plus `train_mask` and `val_mask`. -/
theorem remove_test_mask_spec_witness :
    (∀ p : String × Int, p ∈ remove_test_mask
        [("train_mask", 1), ("val_mask", 2), ("test_mask", 3), ("my_test_mask_0", 4)] ↔
      p ∈ [("train_mask", 1), ("val_mask", 2), ("test_mask", 3), ("my_test_mask_0", 4)] ∧
        ¬ List.IsInfix "test_mask".data p.1.data) ∧
    (∀ v, ("train_mask", v) ∈
        ([("train_mask", 1), ("val_mask", 2), ("test_mask", 3), ("my_test_mask_0", 4)] :
          List (String × Int)) →
      ("train_mask", v) ∈ remove_test_mask
        [("train_mask", 1), ("val_mask", 2), ("test_mask", 3), ("my_test_mask_0", 4)]) ∧
    (∀ v, ("val_mask", v) ∈
        ([("train_mask", 1), ("val_mask", 2), ("test_mask", 3), ("my_test_mask_0", 4)] :
          List (String × Int)) →
      ("val_mask", v) ∈ remove_test_mask
        [("train_mask", 1), ("val_mask", 2), ("test_mask", 3), ("my_test_mask_0", 4)]) ∧
    (∀ p : String × Int, p ∈
        ([("train_mask", 1), ("val_mask", 2), ("test_mask", 3), ("my_test_mask_0", 4)] :
          List (String × Int)) →
      List.IsInfix "test_mask".data p.1.data →
      p ∉ remove_test_mask
        [("train_mask", 1), ("val_mask", 2), ("test_mask", 3), ("my_test_mask_0", 4)]) :=
  remove_test_mask_spec
    [("train_mask", 1), ("val_mask", 2), ("test_mask", 3), ("my_test_mask_0", 4)]
